import Mathlib

/-!
Verification of the Rush Hour solver (`RushHourSolver.cpp`).

The development shallowly embeds the program: the 6×6 character grid
`Board` with its accessors (`Cell`, `CellSafe`, `SetCell`), the move
generator `CheckMove` (one Lean definition per C++ branch, including the
exit-lane special case), the visited-set/frontier registration
`CheckAddState`, the breadth-first driver loop (`solveLoop` / `runMain`,
fuelled because Lean requires a termination measure), and the recursive
solution printer (`PrintSolutionRec`).  Machine integers are modelled as
`Int` (coordinates) and `Nat` (sizes); the C++ `assert` bounds checks are
modelled by the `Option`-valued variants (`CellC`, `SetCellC`,
`CheckMoveChecked`), where `none` means an assertion fired.
-/

/-- The board: `char cell[6][6]` stored row-major, cell `(y, x)` at index
`6*y + x`.  `std::set` membership compares the full grid with `memcmp`,
i.e. structural equality of the 36 characters, which is `DecidableEq`. -/
structure Board where
  cells : List Char
deriving DecidableEq, Repr

/-- A board is well formed when it has exactly the 36 cells of the C++
fixed-size array.  Every board the program constructs satisfies this. -/
def Board.WF (b : Board) : Prop := b.cells.length = 36

instance (b : Board) : Decidable b.WF := by
  unfold Board.WF; infer_instance

/-- `Board::Cell(y,x)`: read a cell.  The C++ version asserts on
out-of-range coordinates; this total version returns the junk character
`'?'` there (the checked variant `CellC` models the assertion itself). -/
def Board.Cell (b : Board) (y x : Int) : Char :=
  if 0 ≤ y ∧ y < 6 ∧ 0 ≤ x ∧ x < 6 then b.cells.getD (6 * y.toNat + x.toNat) '?'
  else '?'

/-- `Board::CellSafe(y,x)`: read a cell, returning the character of code 0
for out-of-range coordinates ("return 0 if the coords are off the board"). -/
def Board.CellSafe (b : Board) (y x : Int) : Char :=
  if x < 0 ∨ 6 ≤ x ∨ y < 0 ∨ 6 ≤ y then Char.ofNat 0 else b.Cell y x

/-- `Board::SetCell(y,x,c)`: write a cell.  The C++ version asserts on
out-of-range coordinates; this total version leaves the board unchanged
there (the checked variant `SetCellC` models the assertion itself). -/
def Board.SetCell (b : Board) (y x : Int) (c : Char) : Board :=
  if 0 ≤ y ∧ y < 6 ∧ 0 ≤ x ∧ x < 6 then ⟨b.cells.set (6 * y.toNat + x.toNat) c⟩
  else b

/-- Checked read: `none` models the `assert` in `Board::Cell` firing. -/
def Board.CellC (b : Board) (y x : Int) : Option Char :=
  if 0 ≤ y ∧ y < 6 ∧ 0 ≤ x ∧ x < 6 then some (b.cells.getD (6 * y.toNat + x.toNat) '?')
  else none

/-- Checked write: `none` models the `assert` in `Board::SetCell` firing. -/
def Board.SetCellC (b : Board) (y x : Int) (c : Char) : Option Board :=
  if 0 ≤ y ∧ y < 6 ∧ 0 ≤ x ∧ x < 6 then some (b.SetCell y x c) else none

/-- The `txty_on_board` macro of `CheckMove`: depending on the sign of the
compile-time direction only one of the four comparisons is live. -/
def onBoardD (dx dy tx ty : Int) : Bool :=
  (decide (0 ≤ dx) || decide (0 ≤ tx)) && (decide (dx ≤ 0) || decide (tx < 6)) &&
  (decide (0 ≤ dy) || decide (0 ≤ ty)) && (decide (dy ≤ 0) || decide (ty < 6))

/-- The far-end-finding `do { tx += dx; ty += dy; } while (...)` loop of
`CheckMove`, phrased as: starting from a known car cell, advance while the
next cell is still on the board and holds the same car.  The fuel (8 at
the call site) strictly exceeds the at most 5 steps possible on a 6-wide
board. -/
def scanEnd (s : Board) (car : Char) (dx dy : Int) : Nat → Int × Int → Int × Int
  | 0, p => p
  | n + 1, p =>
    if onBoardD dx dy (p.1 + dx) (p.2 + dy) ∧ s.Cell (p.2 + dy) (p.1 + dx) = car then
      scanEnd s car dx dy n (p.1 + dx, p.2 + dy)
    else p

/-- Helper for the `for (int xx = tx+1; xx <= x; ++xx) SetCell(y, xx, c)`
loops of the exit-lane branch: write `c` at `n` consecutive cells of row
`y` starting at column `lo`. -/
def setRangeAux : Board → Int → Int → Char → Nat → Board
  | b, _, _, _, 0 => b
  | b, y, lo, c, n + 1 => setRangeAux (b.SetCell y lo c) y (lo + 1) c n

/-- Write `c` at columns `lo..hi` of row `y` (empty if `lo > hi`). -/
def setRange (b : Board) (y lo hi : Int) (c : Char) : Board :=
  setRangeAux b y lo c (hi + 1 - lo).toNat

/-- `CheckMove<dx,dy>(s, x, y, idx)`, as a pure function.  The first
component is the board handed to `CheckAddState` (`none` when the probe
finds no movable car) together with the win flag (`true` exactly on the
`car == 'X'` exit-lane path, where the C++ calls `PrintSolutionAndQuit`).
The second component is the scratch board as the function leaves it: the
C++ mutates `s` in place and undoes the changes on every path that
returns (on the win path the process exits instead). -/
def CheckMove (dx dy : Int) (s : Board) (x y : Int) : Option (Board × Bool) × Board :=
  let tx := x + dx * 2
  let ty := y + dy * 2
  if onBoardD dx dy tx ty = false then (none, s)
  else
    let car := s.Cell ty tx
    if s.Cell (ty - dy) (tx - dx) ≠ car ∨ car = ' ' then (none, s)
    else
      let e := scanEnd s car dx dy 8 (tx, ty)
      let s1 := (s.SetCell y x car).SetCell e.2 e.1 ' '
      if dx = -1 ∧ x = 5 ∧ y = 2 then
        if car = 'X' then (some (s1, true), s1)
        else
          let s2 := setRange s1 y (e.1 + 1) x ' '
          let s3 := setRange s2 y (e.1 + 1) x car
          (some (s2, false), (s3.SetCell y x ' ').SetCell e.2 e.1 car)
      else (some (s1, false), (s1.SetCell y x ' ').SetCell e.2 e.1 car)

/-- Checked far-end loop: propagates an assertion failure of the cell read
(the read is attempted only when `txty_on_board` holds, as in the C++
short-circuit condition). -/
def scanEndC (s : Board) (car : Char) (dx dy : Int) : Nat → Int × Int → Option (Int × Int)
  | 0, p => some p
  | n + 1, p =>
    if onBoardD dx dy (p.1 + dx) (p.2 + dy) then
      match s.CellC (p.2 + dy) (p.1 + dx) with
      | none => none
      | some ch =>
        if ch = car then scanEndC s car dx dy n (p.1 + dx, p.2 + dy) else some p
    else some p

/-- Checked column-range write loop. -/
def setRangeAuxC : Board → Int → Int → Char → Nat → Option Board
  | b, _, _, _, 0 => some b
  | b, y, lo, c, n + 1 =>
    match b.SetCellC y lo c with
    | none => none
    | some b2 => setRangeAuxC b2 y (lo + 1) c n

/-- `CheckMove` with every `Cell` / `SetCell` access bounds-checked:
`none` means one of the C++ `assert`s fired.  Otherwise it returns
exactly what `CheckMove` computes. -/
def CheckMoveChecked (dx dy : Int) (s : Board) (x y : Int) :
    Option (Option (Board × Bool) × Board) :=
  let tx := x + dx * 2
  let ty := y + dy * 2
  if onBoardD dx dy tx ty = false then some (none, s)
  else
    match s.CellC ty tx with
    | none => none
    | some car =>
      match s.CellC (ty - dy) (tx - dx) with
      | none => none
      | some c2 =>
        if c2 ≠ car ∨ car = ' ' then some (none, s)
        else
          match scanEndC s car dx dy 8 (tx, ty) with
          | none => none
          | some e =>
            match s.SetCellC y x car with
            | none => none
            | some sa =>
              match sa.SetCellC e.2 e.1 ' ' with
              | none => none
              | some s1 =>
                if dx = -1 ∧ x = 5 ∧ y = 2 then
                  if car = 'X' then some (some (s1, true), s1)
                  else
                    match setRangeAuxC s1 y (e.1 + 1) ' ' (x + 1 - (e.1 + 1)).toNat with
                    | none => none
                    | some s2 =>
                      match setRangeAuxC s2 y (e.1 + 1) car (x + 1 - (e.1 + 1)).toNat with
                      | none => none
                      | some s3 =>
                        match s3.SetCellC y x ' ' with
                        | none => none
                        | some s4 =>
                          match s4.SetCellC e.2 e.1 car with
                          | none => none
                          | some s5 => some (some (s2, false), s5)
                else
                  match s1.SetCellC y x ' ' with
                  | none => none
                  | some s4 =>
                    match s4.SetCellC e.2 e.1 car with
                    | none => none
                    | some s5 => some (some (s1, false), s5)

/-- The global search state: `states_in_list` (the `std::set`) and
`state_list` (the vector of `(board, previous-index)` pairs). -/
structure SearchState where
  visited : Finset Board
  list : List (Board × Int)
deriving DecidableEq

/-- Placeholder entry for out-of-range `state_list` indexing (never used
on the indices the program actually reads). -/
def dummyEntry : Board × Int := (⟨[]⟩, 0)

/-- `CheckAddState(state, from)`: try to insert into the set; on success
append `(state, from)` to the list, otherwise leave everything unchanged
(the debug dump is compiled out, `DEBUG_PROGRESS_OUTPUT = false`). -/
def CheckAddState (st : SearchState) (state : Board) (origin : Int) : SearchState :=
  if state ∈ st.visited then st
  else ⟨insert state st.visited, st.list ++ [(state, origin)]⟩

/-- The four template instantiations of `CheckMove`, in call order. -/
def dirs : List (Int × Int) := [(1, 0), (-1, 0), (0, 1), (0, -1)]

/-- The row-major `(y, x)` cell scan order of the driver loop. -/
def allCells : List (Int × Int) :=
  (List.range 6).flatMap (fun y => (List.range 6).map (fun x => ((y : Int), (x : Int))))

/-- Inner loop over the four scan directions for one empty cell:
`.error` is the control flow of `PrintSolutionAndQuit` (the win path
leaves the whole search immediately). -/
def exploreDirs (s : Board) (x y : Int) (idxI : Int) :
    List (Int × Int) → SearchState → Except SearchState SearchState
  | [], st => .ok st
  | d :: rest, st =>
    match (CheckMove d.1 d.2 s x y).1 with
    | none => exploreDirs s x y idxI rest st
    | some (b, win) =>
      let st2 := CheckAddState st b idxI
      if win then .error st2 else exploreDirs s x y idxI rest st2

/-- Loop over the cells of the dequeued board, skipping non-empty ones. -/
def exploreCells (s : Board) (idxI : Int) :
    List (Int × Int) → SearchState → Except SearchState SearchState
  | [], st => .ok st
  | yx :: rest, st =>
    if s.Cell yx.1 yx.2 ≠ ' ' then exploreCells s idxI rest st
    else
      match exploreDirs s yx.2 yx.1 idxI dirs st with
      | .error st2 => .error st2
      | .ok st2 => exploreCells s idxI rest st2

/-- How a run of `main` ends: the win path (process exit 0 via
`PrintSolutionAndQuit`), frontier exhaustion (`return 1`), or the fuel of
the embedding running out (the C++ loop needs none). -/
inductive Outcome where
  | solved : SearchState → Outcome
  | exhausted : SearchState → Outcome
  | outOfFuel : SearchState → Outcome
deriving DecidableEq

/-- The driver `for (idx_state = 0; idx_state < state_list.size(); ...)`
loop: dequeue the board at the cursor, generate its successors, stop as
solved the instant a winning state was handed to `CheckAddState`. -/
def solveLoop : Nat → Nat → SearchState → Outcome
  | 0, _, st => .outOfFuel st
  | fuel + 1, idx, st =>
    if idx < st.list.length then
      match exploreCells (st.list.getD idx dummyEntry).1 (idx : Int) allCells st with
      | .error st2 => .solved st2
      | .ok st2 => solveLoop fuel (idx + 1) st2
    else .exhausted st

/-- The empty global state the process starts with. -/
def emptySearch : SearchState := ⟨∅, []⟩

/-- `main` for a given initial board: register it with origin `-1`, then
run the search loop from cursor 0. -/
def runMain (fuel : Nat) (b0 : Board) : Outcome :=
  solveLoop fuel 0 (CheckAddState emptySearch b0 (-1))

/-- The process exit status of each outcome: `exit(0)` inside
`PrintSolutionAndQuit` on the solved path, `return 1` from `main` after
exhaustion. -/
def processStatus : Outcome → Option Nat
  | .solved _ => some 0
  | .exhausted _ => some 1
  | .outOfFuel _ => none

/-- The user-facing message printed on the exhausted path. -/
def userMessage : Outcome → Option String
  | .exhausted _ => some ("Cannot find solution!")
  | _ => none

/-- The chain of boards from the root to entry `i`, obtained by walking
the `previous` indices back to the root sentinel `-1` (fuelled; any fuel
at least the chain length gives the full chain). -/
def chainTo (lst : List (Board × Int)) : Nat → Int → List Board
  | 0, _ => []
  | fuel + 1, i =>
    if i < 0 then []
    else chainTo lst fuel (lst.getD i.toNat dummyEntry).2 ++ [(lst.getD i.toNat dummyEntry).1]

/-- `PrintSolutionRecursive(i, next)`: returns the printed steps (step
number, board printed, board shown as `next` for the arrow rendering;
`Print` substitutes the board itself when `next` is null) together with
the returned step number. -/
def PrintSolutionRec (lst : List (Board × Int)) :
    Nat → Int → Option Board → List (Nat × Board × Board) × Nat
  | 0, _, _ => ([], 0)
  | fuel + 1, i, next =>
    if i < 0 then ([], 0)
    else
      let e := lst.getD i.toNat dummyEntry
      let r := PrintSolutionRec lst fuel e.2 (some e.1)
      (r.1 ++ [(r.2 + 1, e.1, next.getD e.1)], r.2 + 1)

/-- `PrintSolutionAndQuit()`: print the chain ending at the last entry of
the list (assumed to be the solution), with step numbers from 1. -/
def PrintSolutionAndQuit (st : SearchState) : List (Nat × Board × Board) :=
  (PrintSolutionRec st.list (st.list.length + 1) ((st.list.length : Int) - 1) none).1

/-- Specification-level shape of the printed output: the chain of boards
in forward root-to-goal order, numbered from `n+1`, each board paired
with the next board of the chain and the last board paired with `next`
(or itself when `next` is absent). -/
def stepsOf : List Board → Option Board → Nat → List (Nat × Board × Board)
  | [], _, _ => []
  | b :: rest, next, n =>
    (n + 1, b, match rest with | [] => next.getD b | b2 :: _ => b2) :: stepsOf rest next (n + 1)

/-- Build a board from its six rows. -/
def mkBoard (r0 r1 r2 r3 r4 r5 : String) : Board :=
  ⟨r0.toList ++ r1.toList ++ r2.toList ++ r3.toList ++ r4.toList ++ r5.toList⟩

/-- The boards of the emitted solution, in the order the process prints
them: the parent chain of the last list entry (`PrintSolutionAndQuit` is
called right after the winning `CheckAddState`, and assumes the solution
is the last state in the list). -/
def emittedBoards (o : Outcome) : List Board :=
  match o with
  | .solved st => chainTo st.list 64 ((st.list.length : Int) - 1)
  | _ => []

/-- Extract the state carried by an `Except`-valued exploration result. -/
def okState : Except SearchState SearchState → SearchState
  | .ok st => st
  | .error st => st

/-- Extract the search state carried by an outcome. -/
def outState : Outcome → SearchState
  | .solved st => st
  | .exhausted st => st
  | .outOfFuel st => st

/-- Modelled from the spec: the "full exits via the exit row" legal move
for the goal car — the goal car lies entirely on the exit row and every
cell from its leftmost cell to the right board edge is the goal car's own
or empty, so one move drives it off the board.  This legal move exists in
the specification's move vocabulary but has no counterpart in
`CheckMove`, which only detects the goal car when a slide first puts its
leading edge at the last column. -/
def specGoalCarCanFullyExit (b : Board) : Bool :=
  ((List.range 6).any (fun c => decide (b.Cell 2 (c : Int) = 'X'))) &&
  ((List.range 6).all (fun r => (List.range 6).all (fun c =>
    decide (b.Cell (r : Int) (c : Int) ≠ 'X') || decide (r = 2)))) &&
  ((List.range 6).all (fun c1 => decide (b.Cell 2 (c1 : Int) ≠ 'X') ||
    (List.range 6).all (fun c2 => decide (c2 < c1) ||
      decide (b.Cell 2 (c2 : Int) = 'X') || decide (b.Cell 2 (c2 : Int) = ' '))))

/-- Modelled from the spec: the board after the goal car's full exit (all
of its cells erased), when that legal move is available. -/
def specGoalCarFullExit (b : Board) : Option Board :=
  if specGoalCarCanFullyExit b then
    some ⟨b.cells.map (fun ch => if ch = 'X' then ' ' else ch)⟩
  else none

/-- The failing input for the optimality claim: the goal car already sits
with its leading edge at the exit column. -/
def TrivBoard : Board :=
  mkBoard ("      ") ("      ") ("    XX") ("      ") ("      ") ("      ")

/-- `TrivBoard` after the goal car slides one cell left. -/
def TrivMid : Board :=
  mkBoard ("      ") ("      ") ("   XX ") ("      ") ("      ") ("      ")

/-- `TrivBoard` after the goal car slides two cells left. -/
def TrivFar : Board :=
  mkBoard ("      ") ("      ") ("  XX  ") ("      ") ("      ") ("      ")

/-- A board with no cars at all (the search exhausts immediately). -/
def BlankBoard : Board :=
  mkBoard ("      ") ("      ") ("      ") ("      ") ("      ") ("      ")

/-- A non-goal car `A` one slide away from the exit column. -/
def CarA2 : Board :=
  mkBoard ("      ") ("      ") ("   AA ") ("      ") ("      ") ("      ")

/-- A vertical car `B` able to slide down into the empty cell `(2,0)`. -/
def VCarB : Board :=
  mkBoard ("B     ") ("B     ") ("      ") ("      ") ("      ") ("      ")

/-- `VCarB` after that downward slide. -/
def VCarBSlid : Board :=
  mkBoard ("      ") ("B     ") ("B     ") ("      ") ("      ") ("      ")

/-- The search state right after the root `TrivBoard` is registered. -/
def stInit : SearchState := CheckAddState emptySearch TrivBoard (-1)

/-- The search state after the driver has fully explored frontier entry 0
of the `TrivBoard` run (the loop is about to dequeue entry 1). -/
def stA : SearchState := okState (exploreCells TrivBoard 0 allCells stInit)

/-- The row-major cells strictly before `(2,5)` in the driver's scan. -/
def preCells : List (Int × Int) := allCells.take 17

/-- The row-major cells strictly after `(2,5)` in the driver's scan. -/
def postCells : List (Int × Int) := allCells.drop 18

/-- The search state after the cells before `(2,5)` of entry 1 of the
`TrivBoard` run have been explored. -/
def st1w : SearchState := okState (exploreCells TrivMid 1 preCells stA)

/-! Basic cell-access lemmas. -/

theorem getD_set_same (l : List Char) (i : Nat) (a d : Char) (h : i < l.length) :
    (l.set i a).getD i d = a := by
  simp [List.getD_eq_getElem?_getD, List.getElem?_set_self h]

theorem getD_set_diff (l : List Char) (i j : Nat) (a d : Char) (h : i ≠ j) :
    (l.set i a).getD j d = l.getD j d := by
  simp [List.getD_eq_getElem?_getD, List.getElem?_set_ne h]

theorem Board.SetCell_WF (b : Board) (y x : Int) (c : Char) (hwf : b.WF) :
    (b.SetCell y x c).WF := by
  unfold Board.SetCell
  split
  · simpa [Board.WF] using hwf
  · exact hwf

theorem Board.Cell_SetCell_eq (b : Board) (y x : Int) (c : Char) (hwf : b.WF)
    (h : 0 ≤ y ∧ y < 6 ∧ 0 ≤ x ∧ x < 6) :
    (b.SetCell y x c).Cell y x = c := by
  unfold Board.SetCell Board.Cell
  rw [if_pos h]
  simp only [if_pos h]
  exact getD_set_same _ _ _ _ (by unfold Board.WF at hwf; omega)

theorem Board.Cell_SetCell_ne (b : Board) (y x y' x' : Int) (c : Char)
    (hne : ¬(y' = y ∧ x' = x)) :
    (b.SetCell y x c).Cell y' x' = b.Cell y' x' := by
  unfold Board.SetCell Board.Cell
  by_cases h : 0 ≤ y ∧ y < 6 ∧ 0 ≤ x ∧ x < 6
  · rw [if_pos h]
    by_cases h' : 0 ≤ y' ∧ y' < 6 ∧ 0 ≤ x' ∧ x' < 6
    · simp only [if_pos h']
      exact getD_set_diff _ _ _ _ _ (by omega)
    · simp only [if_neg h']
  · rw [if_neg h]

theorem Board.eq_of_cells_ext (b1 b2 : Board) (h1 : b1.WF) (h2 : b2.WF)
    (h : ∀ y x : Int, 0 ≤ y → y < 6 → 0 ≤ x → x < 6 → b1.Cell y x = b2.Cell y x) :
    b1 = b2 := by
  unfold Board.WF at h1 h2
  cases b1 with
  | mk l1 =>
    cases b2 with
    | mk l2 =>
      simp only at h1 h2 ⊢
      congr 1
      apply List.ext_getElem (by omega)
      intro i hi1 hi2
      have hi : i < 36 := by omega
      have hc := h ((i / 6 : Nat) : Int) ((i % 6 : Nat) : Int)
        (by omega) (by omega) (by omega) (by omega)
      unfold Board.Cell at hc
      rw [if_pos (by omega), if_pos (by omega)] at hc
      simp only [Int.toNat_ofNat] at hc
      have hidx : 6 * (i / 6) + i % 6 = i := by omega
      rw [hidx] at hc
      rw [List.getD_eq_getElem?_getD, List.getD_eq_getElem?_getD] at hc
      rw [List.getElem?_eq_getElem hi1, List.getElem?_eq_getElem hi2] at hc
      simpa using hc

/-! Lemmas about the far-end scan loop and the range-write loops. -/

theorem dirStep (dx dy tx ty : Int) (hd : (dx, dy) ∈ dirs)
    (h : 0 ≤ tx ∧ tx < 6 ∧ 0 ≤ ty ∧ ty < 6)
    (hb : onBoardD dx dy (tx + dx) (ty + dy) = true) :
    0 ≤ tx + dx ∧ tx + dx < 6 ∧ 0 ≤ ty + dy ∧ ty + dy < 6 := by
  simp [dirs, Prod.ext_iff] at hd
  unfold onBoardD at hb
  simp only [Bool.and_eq_true, Bool.or_eq_true, decide_eq_true_eq] at hb
  rcases hd with ⟨h1, h2⟩ | ⟨h1, h2⟩ | ⟨h1, h2⟩ | ⟨h1, h2⟩ <;> subst h1 <;> subst h2 <;> omega

theorem scanEnd_spec (s : Board) (car : Char) (dx dy : Int) (hd : (dx, dy) ∈ dirs) :
    ∀ (fuel : Nat) (p : Int × Int),
      0 ≤ p.1 ∧ p.1 < 6 ∧ 0 ≤ p.2 ∧ p.2 < 6 → s.Cell p.2 p.1 = car →
      (0 ≤ (scanEnd s car dx dy fuel p).1 ∧ (scanEnd s car dx dy fuel p).1 < 6 ∧
        0 ≤ (scanEnd s car dx dy fuel p).2 ∧ (scanEnd s car dx dy fuel p).2 < 6) ∧
      s.Cell (scanEnd s car dx dy fuel p).2 (scanEnd s car dx dy fuel p).1 = car := by
  intro fuel
  induction fuel with
  | zero => intro p hin hc; exact ⟨hin, hc⟩
  | succ n ih =>
    intro p hin hc
    unfold scanEnd
    by_cases hcond : onBoardD dx dy (p.1 + dx) (p.2 + dy) ∧ s.Cell (p.2 + dy) (p.1 + dx) = car
    · rw [if_pos hcond]
      exact ih (p.1 + dx, p.2 + dy) (dirStep dx dy p.1 p.2 hd hin hcond.1) hcond.2
    · rw [if_neg hcond]
      exact ⟨hin, hc⟩

theorem onBoardD_left (a b : Int) : onBoardD (-1) 0 a b = decide (0 ≤ a) := by
  unfold onBoardD
  simp

theorem scanEnd_left (s : Board) (car : Char) :
    ∀ (fuel : Nat) (tx ty : Int), 0 ≤ tx → s.Cell ty tx = car →
      ∃ k : Int, 0 ≤ k ∧ k ≤ tx ∧
        scanEnd s car (-1) 0 fuel (tx, ty) = (tx - k, ty) ∧
        ∀ c : Int, tx - k ≤ c → c ≤ tx → s.Cell ty c = car := by
  intro fuel
  induction fuel with
  | zero =>
    intro tx ty htx hc
    exact ⟨0, le_refl 0, htx, by simp [scanEnd], fun c h1 h2 => by
      have : c = tx := by omega
      rw [this]; exact hc⟩
  | succ n ih =>
    intro tx ty htx hc
    unfold scanEnd
    by_cases hcond : onBoardD (-1) 0 (tx + -1) (ty + 0) ∧ s.Cell (ty + 0) (tx + -1) = car
    · rw [if_pos hcond]
      have hge : (0 : Int) ≤ tx + -1 := by
        have := hcond.1
        rw [onBoardD_left] at this
        simpa using this
      have hc2 : s.Cell (ty + 0) (tx + -1) = car := hcond.2
      obtain ⟨k, hk0, hkle, heq, hcells⟩ := ih (tx + -1) (ty + 0) hge hc2
      refine ⟨k + 1, by omega, by omega, ?_, ?_⟩
      · rw [heq]
        simp only [Prod.mk.injEq]
        constructor <;> omega
      · intro c h1 h2
        by_cases hlt : c ≤ tx - 1
        · have := hcells c (by omega) (by omega)
          simpa using this
        · have hcx : c = tx := by omega
          rw [hcx]; exact hc
    · rw [if_neg hcond]
      exact ⟨0, le_refl 0, htx, by simp, fun c h1 h2 => by
        have : c = tx := by omega
        rw [this]; exact hc⟩

theorem setRangeAux_WF (y : Int) (c : Char) :
    ∀ (n : Nat) (b : Board) (lo : Int), b.WF → (setRangeAux b y lo c n).WF := by
  intro n
  induction n with
  | zero => intro b lo hwf; exact hwf
  | succ m ih => intro b lo hwf; exact ih _ _ (Board.SetCell_WF b y lo c hwf)

theorem Cell_setRangeAux (y : Int) (c : Char) :
    ∀ (n : Nat) (b : Board) (lo : Int), b.WF → 0 ≤ y → y < 6 → 0 ≤ lo → lo + n ≤ 6 →
      ∀ y' x' : Int, (setRangeAux b y lo c n).Cell y' x' =
        if y' = y ∧ lo ≤ x' ∧ x' < lo + n then c else b.Cell y' x' := by
  intro n
  induction n with
  | zero =>
    intro b lo hwf hy0 hy6 hlo hhi y' x'
    rw [if_neg (by rintro ⟨-, h1, h2⟩; omega)]
    rfl
  | succ m ih =>
    intro b lo hwf hy0 hy6 hlo hhi y' x'
    have hstep : setRangeAux b y lo c (m + 1) = setRangeAux (b.SetCell y lo c) y (lo + 1) c m := rfl
    rw [hstep]
    rw [ih (b.SetCell y lo c) (lo + 1) (Board.SetCell_WF b y lo c hwf) hy0 hy6 (by omega)
      (by omega) y' x']
    by_cases hout : y' = y ∧ lo ≤ x' ∧ x' < lo + (m + 1 : Nat)
    · rw [if_pos hout]
      obtain ⟨hy', hx1, hx2⟩ := hout
      by_cases hx0 : lo + 1 ≤ x'
      · rw [if_pos ⟨hy', hx0, by omega⟩]
      · rw [if_neg (by rintro ⟨-, h1, -⟩; omega)]
        have hx : x' = lo := by omega
        rw [hy', hx]
        exact Board.Cell_SetCell_eq b y lo c hwf ⟨hy0, hy6, by omega, by omega⟩
    · rw [if_neg hout]
      rw [if_neg (by rintro ⟨h1, h2, h3⟩; exact hout ⟨h1, by omega, by omega⟩)]
      apply Board.Cell_SetCell_ne
      rintro ⟨h1, h2⟩
      exact hout ⟨h1, by omega, by omega⟩

/-! Shape lemmas for `CheckMove`: which branch produced which result. -/

theorem probe_inR (dx dy x y : Int) (hd : (dx, dy) ∈ dirs)
    (hx : 0 ≤ x ∧ x < 6) (hy : 0 ≤ y ∧ y < 6)
    (hob : onBoardD dx dy (x + dx * 2) (y + dy * 2) = true) :
    0 ≤ x + dx * 2 ∧ x + dx * 2 < 6 ∧ 0 ≤ y + dy * 2 ∧ y + dy * 2 < 6 := by
  simp [dirs, Prod.ext_iff] at hd
  unfold onBoardD at hob
  simp only [Bool.and_eq_true, Bool.or_eq_true, decide_eq_true_eq] at hob
  rcases hd with ⟨h1, h2⟩ | ⟨h1, h2⟩ | ⟨h1, h2⟩ | ⟨h1, h2⟩ <;> subst h1 <;> subst h2 <;> omega

theorem CheckMove_probe (dx dy : Int) (s : Board) (x y : Int)
    (h : (CheckMove dx dy s x y).1 ≠ none) :
    onBoardD dx dy (x + dx * 2) (y + dy * 2) = true ∧
    s.Cell (y + dy * 2 - dy) (x + dx * 2 - dx) = s.Cell (y + dy * 2) (x + dx * 2) ∧
    s.Cell (y + dy * 2) (x + dx * 2) ≠ ' ' := by
  by_cases h1 : onBoardD dx dy (x + dx * 2) (y + dy * 2) = false
  · exfalso
    apply h
    unfold CheckMove
    rw [if_pos h1]
  · by_cases h2 : s.Cell (y + dy * 2 - dy) (x + dx * 2 - dx) ≠ s.Cell (y + dy * 2) (x + dx * 2) ∨
        s.Cell (y + dy * 2) (x + dx * 2) = ' '
    · exfalso
      apply h
      unfold CheckMove
      rw [if_neg h1, if_pos h2]
    · push_neg at h2
      exact ⟨by simpa using h1, h2.1, h2.2⟩

theorem CheckMove_eq_ordinary (dx dy : Int) (s : Board) (x y : Int)
    (hob : onBoardD dx dy (x + dx * 2) (y + dy * 2) = true)
    (hpr : s.Cell (y + dy * 2 - dy) (x + dx * 2 - dx) = s.Cell (y + dy * 2) (x + dx * 2))
    (hsp : s.Cell (y + dy * 2) (x + dx * 2) ≠ ' ')
    (hnex : ¬(dx = -1 ∧ x = 5 ∧ y = 2)) :
    CheckMove dx dy s x y =
      (some ((s.SetCell y x (s.Cell (y + dy * 2) (x + dx * 2))).SetCell
          (scanEnd s (s.Cell (y + dy * 2) (x + dx * 2)) dx dy 8 (x + dx * 2, y + dy * 2)).2
          (scanEnd s (s.Cell (y + dy * 2) (x + dx * 2)) dx dy 8 (x + dx * 2, y + dy * 2)).1 ' ',
        false),
       (((s.SetCell y x (s.Cell (y + dy * 2) (x + dx * 2))).SetCell
          (scanEnd s (s.Cell (y + dy * 2) (x + dx * 2)) dx dy 8 (x + dx * 2, y + dy * 2)).2
          (scanEnd s (s.Cell (y + dy * 2) (x + dx * 2)) dx dy 8 (x + dx * 2, y + dy * 2)).1
          ' ').SetCell y x ' ').SetCell
          (scanEnd s (s.Cell (y + dy * 2) (x + dx * 2)) dx dy 8 (x + dx * 2, y + dy * 2)).2
          (scanEnd s (s.Cell (y + dy * 2) (x + dx * 2)) dx dy 8 (x + dx * 2, y + dy * 2)).1
          (s.Cell (y + dy * 2) (x + dx * 2))) := by
  unfold CheckMove
  rw [if_neg (by simp [hob])]
  rw [if_neg (by simp [hpr, hsp])]
  rw [if_neg hnex]

theorem CheckMove_win_inv (dx dy : Int) (s : Board) (x y : Int) (b : Board)
    (hw : (CheckMove dx dy s x y).1 = some (b, true)) :
    dx = -1 ∧ x = 5 ∧ y = 2 ∧ s.Cell (y + dy * 2) (x + dx * 2) = 'X' ∧
    onBoardD dx dy (x + dx * 2) (y + dy * 2) = true ∧
    s.Cell (y + dy * 2 - dy) (x + dx * 2 - dx) = s.Cell (y + dy * 2) (x + dx * 2) ∧
    s.Cell (y + dy * 2) (x + dx * 2) ≠ ' ' ∧
    b = (s.SetCell y x (s.Cell (y + dy * 2) (x + dx * 2))).SetCell
          (scanEnd s (s.Cell (y + dy * 2) (x + dx * 2)) dx dy 8 (x + dx * 2, y + dy * 2)).2
          (scanEnd s (s.Cell (y + dy * 2) (x + dx * 2)) dx dy 8 (x + dx * 2, y + dy * 2)).1 ' ' := by
  by_cases h1 : onBoardD dx dy (x + dx * 2) (y + dy * 2) = false
  · unfold CheckMove at hw
    rw [if_pos h1] at hw
    simp at hw
  · by_cases h2 : s.Cell (y + dy * 2 - dy) (x + dx * 2 - dx) ≠ s.Cell (y + dy * 2) (x + dx * 2) ∨
        s.Cell (y + dy * 2) (x + dx * 2) = ' '
    · unfold CheckMove at hw
      rw [if_neg h1, if_pos h2] at hw
      simp at hw
    · by_cases h3 : dx = -1 ∧ x = 5 ∧ y = 2
      · by_cases h4 : s.Cell (y + dy * 2) (x + dx * 2) = 'X'
        · unfold CheckMove at hw
          rw [if_neg h1, if_neg h2, if_pos h3, if_pos h4] at hw
          simp only [Prod.fst, Option.some.injEq, Prod.mk.injEq] at hw
          push_neg at h2
          exact ⟨h3.1, h3.2.1, h3.2.2, h4, by simpa using h1, h2.1, h2.2, hw.1.symm⟩
        · unfold CheckMove at hw
          rw [if_neg h1, if_neg h2, if_pos h3, if_neg h4] at hw
          simp at hw
      · unfold CheckMove at hw
        rw [if_neg h1, if_neg h2, if_neg h3] at hw
        simp at hw

theorem setRange_WF (b : Board) (y lo hi : Int) (c : Char) (hwf : b.WF) :
    (setRange b y lo hi c).WF :=
  setRangeAux_WF y c _ b lo hwf

theorem Cell_setRange (b : Board) (y lo hi : Int) (c : Char) (hwf : b.WF)
    (hy : 0 ≤ y ∧ y < 6) (hlo : 0 ≤ lo) (hlohi : lo ≤ hi + 1) (hhi : hi < 6) :
    ∀ y' x' : Int, (setRange b y lo hi c).Cell y' x' =
      if y' = y ∧ lo ≤ x' ∧ x' ≤ hi then c else b.Cell y' x' := by
  intro y' x'
  unfold setRange
  rw [Cell_setRangeAux y c _ b lo hwf hy.1 hy.2 hlo (by omega)]
  by_cases hcond : y' = y ∧ lo ≤ x' ∧ x' ≤ hi
  · rw [if_pos hcond, if_pos ⟨hcond.1, hcond.2.1, by omega⟩]
  · rw [if_neg hcond, if_neg ?_]
    rintro ⟨a1, a2, a3⟩
    exact hcond ⟨a1, a2, by omega⟩

/-- C7: an ordinary one-step move (any car length, any of the four scan
directions, away from the exit-lane special case) produces a successor
board that differs from the source board in exactly two cells: the empty
target cell `(y,x)` now holds the car's identifier, the far-end cell now
holds the empty marker, and every other cell — in particular the rest of
the car's span — is unchanged. -/
theorem checkMove_ordinary_frame (dx dy x y : Int) (s b : Board) (w : Bool)
    (hd : (dx, dy) ∈ dirs) (hwf : s.WF)
    (hx : 0 ≤ x ∧ x < 6) (hy : 0 ≤ y ∧ y < 6)
    (hempty : s.Cell y x = ' ')
    (hnex : ¬(dx = -1 ∧ x = 5 ∧ y = 2))
    (hsome : (CheckMove dx dy s x y).1 = some (b, w)) :
    w = false ∧
    ∃ (car : Char) (ty2 tx2 : Int), car ≠ ' ' ∧ s.Cell ty2 tx2 = car ∧
      ¬(ty2 = y ∧ tx2 = x) ∧ b.Cell y x = car ∧ b.Cell ty2 tx2 = ' ' ∧
      ∀ y' x' : Int, ¬(y' = y ∧ x' = x) → ¬(y' = ty2 ∧ x' = tx2) →
        b.Cell y' x' = s.Cell y' x' := by
  have hne : (CheckMove dx dy s x y).1 ≠ none := by rw [hsome]; simp
  obtain ⟨hob, hpr, hsp⟩ := CheckMove_probe dx dy s x y hne
  have heq := CheckMove_eq_ordinary dx dy s x y hob hpr hsp hnex
  rw [heq] at hsome
  simp only [Option.some.injEq, Prod.mk.injEq] at hsome
  obtain ⟨hb, hwv⟩ := hsome
  have hin := probe_inR dx dy x y hd hx hy hob
  have hsc := scanEnd_spec s (s.Cell (y + dy * 2) (x + dx * 2)) dx dy hd 8
    (x + dx * 2, y + dy * 2) hin rfl
  obtain ⟨⟨hr1, hr2, hr3, hr4⟩, hcend⟩ := hsc
  refine ⟨hwv.symm, s.Cell (y + dy * 2) (x + dx * 2),
    (scanEnd s (s.Cell (y + dy * 2) (x + dx * 2)) dx dy 8 (x + dx * 2, y + dy * 2)).2,
    (scanEnd s (s.Cell (y + dy * 2) (x + dx * 2)) dx dy 8 (x + dx * 2, y + dy * 2)).1,
    hsp, hcend, ?_, ?_, ?_, ?_⟩
  · rintro ⟨hey, hex⟩
    rw [hey, hex] at hcend
    rw [hempty] at hcend
    exact hsp hcend.symm
  · rw [← hb]
    rw [Board.Cell_SetCell_ne _ _ _ _ _ _ ?_]
    · exact Board.Cell_SetCell_eq s y x _ hwf ⟨hy.1, hy.2, hx.1, hx.2⟩
    · rintro ⟨hey, hex⟩
      rw [← hey, ← hex] at hcend
      rw [hempty] at hcend
      exact hsp hcend.symm
  · rw [← hb]
    exact Board.Cell_SetCell_eq _ _ _ _ (Board.SetCell_WF s y x _ hwf) ⟨hr3, hr4, hr1, hr2⟩
  · intro y' x' hn1 hn2
    rw [← hb]
    rw [Board.Cell_SetCell_ne _ _ _ _ _ _ hn2]
    exact Board.Cell_SetCell_ne _ _ _ _ _ _ hn1

/-- Witness for C7 at a concrete input: the vertical car `B` of `VCarB`
slides down into the empty cell `(2,0)`. -/
theorem checkMove_ordinary_frame_witness :
    false = false ∧
    ∃ (car : Char) (ty2 tx2 : Int), car ≠ ' ' ∧ VCarB.Cell ty2 tx2 = car ∧
      ¬(ty2 = 2 ∧ tx2 = 0) ∧ VCarBSlid.Cell 2 0 = car ∧ VCarBSlid.Cell ty2 tx2 = ' ' ∧
      ∀ y' x' : Int, ¬(y' = 2 ∧ x' = 0) → ¬(y' = ty2 ∧ x' = tx2) →
        VCarBSlid.Cell y' x' = VCarB.Cell y' x' :=
  checkMove_ordinary_frame 0 (-1) 0 2 VCarB VCarBSlid false (by decide) (by decide)
    (by decide) (by decide) (by decide) (by decide) (by decide)

/-- C10: a winning state is detected only on the rightward-moving scan
(`dx = -1`, `dy = 0`) into the empty cell at the last column of the exit
row, with the moved car being the goal car; the registered winning board
is just the two-cell slide (goal car cells never erased), still holds the
goal car on the exit row ending at the last column. -/
theorem winning_state_shape (dx dy x y : Int) (s b : Board)
    (hd : (dx, dy) ∈ dirs) (hwf : s.WF)
    (hx : 0 ≤ x ∧ x < 6) (hy : 0 ≤ y ∧ y < 6)
    (hwin : (CheckMove dx dy s x y).1 = some (b, true)) :
    dx = -1 ∧ dy = 0 ∧ x = 5 ∧ y = 2 ∧
    s.Cell 2 3 = 'X' ∧ s.Cell 2 4 = 'X' ∧ b.Cell 2 5 = 'X' ∧
    ∃ t : Int, 0 ≤ t ∧ t ≤ 3 ∧
      b = (s.SetCell 2 5 'X').SetCell 2 t ' ' ∧
      (∀ c : Int, t ≤ c → c ≤ 4 → s.Cell 2 c = 'X') ∧
      (∀ c : Int, t + 1 ≤ c → c ≤ 5 → b.Cell 2 c = 'X') := by
  obtain ⟨hdx, hx5, hy2, hX, hob, hpr, hsp, hb⟩ := CheckMove_win_inv dx dy s x y b hwin
  have hdy : dy = 0 := by
    simp [dirs, Prod.ext_iff] at hd
    rcases hd with ⟨h1, h2⟩ | ⟨h1, h2⟩ | ⟨h1, h2⟩ | ⟨h1, h2⟩ <;> omega
  subst hdx hdy hx5 hy2
  norm_num at hX hpr hb
  have hspan := scanEnd_left s 'X' 8 3 2 (by norm_num) hX
  obtain ⟨k, hk0, hk3, heq, hcells⟩ := hspan
  rw [hX] at hb
  rw [heq] at hb
  simp only at hb
  have hsspan : ∀ c : Int, 3 - k ≤ c → c ≤ 4 → s.Cell 2 c = 'X' := by
    intro c h1 h2
    by_cases hc3 : c ≤ 3
    · exact hcells c h1 hc3
    · have : c = 4 := by omega
      rw [this]
      rw [hpr]
      exact hX
  have hbspan : ∀ c : Int, 3 - k + 1 ≤ c → c ≤ 5 → b.Cell 2 c = 'X' := by
    intro c h1 h2
    rw [hb]
    by_cases hc5 : c = 5
    · rw [hc5]
      rw [Board.Cell_SetCell_ne _ _ _ _ _ _ (by rintro ⟨-, h⟩; omega)]
      exact Board.Cell_SetCell_eq s 2 5 'X' hwf (by norm_num)
    · rw [Board.Cell_SetCell_ne _ _ _ _ _ _ (by rintro ⟨-, h⟩; omega)]
      rw [Board.Cell_SetCell_ne _ _ _ _ _ _ (by rintro ⟨-, h⟩; omega)]
      exact hsspan c (by omega) (by omega)
  refine ⟨rfl, rfl, rfl, rfl, hX, by rw [hpr]; exact hX, ?_, 3 - k, by omega, by omega,
    hb, hsspan, hbspan⟩
  exact hbspan 5 (by omega) (by omega)

/-- Witness for C10 at a concrete input: the goal car of `TrivMid` slides
right into `(2,5)`, producing the winning board `TrivBoard`. -/
theorem winning_state_shape_witness :
    (-1 : Int) = -1 ∧ (0 : Int) = 0 ∧ (5 : Int) = 5 ∧ (2 : Int) = 2 ∧
    TrivMid.Cell 2 3 = 'X' ∧ TrivMid.Cell 2 4 = 'X' ∧ TrivBoard.Cell 2 5 = 'X' ∧
    ∃ t : Int, 0 ≤ t ∧ t ≤ 3 ∧
      TrivBoard = (TrivMid.SetCell 2 5 'X').SetCell 2 t ' ' ∧
      (∀ c : Int, t ≤ c → c ≤ 4 → TrivMid.Cell 2 c = 'X') ∧
      (∀ c : Int, t + 1 ≤ c → c ≤ 5 → TrivBoard.Cell 2 c = 'X') :=
  winning_state_shape (-1) 0 5 2 TrivMid TrivBoard (by decide) (by decide) (by decide)
    (by decide) (by decide)

/-- C2 counterexample: for the non-goal car `A` of `CarA2` moving right
into `(2,5)`, the single board handed to `CheckAddState` is the fully
vacated board (here the blank board), and that board differs from the
one-step-slid board, which in particular still holds `A` at `(2,5)`:
the slid successor is not offered alongside the vacated one. -/
theorem exit_slide_not_offered_cex :
    (CheckMove (-1) 0 CarA2 5 2).1 = some (BlankBoard, false) ∧
    BlankBoard ≠ (CarA2.SetCell 2 5 'A').SetCell 2 3 ' ' ∧
    ((CarA2.SetCell 2 5 'A').SetCell 2 3 ' ').Cell 2 5 = 'A' := by
  decide

/-- C2 (amended): when a move drives a non-goal car's leading edge to the
last column of the exit row, the fully-vacated board (all of that car's
cells set to empty) is registered as the successor state in place of the
ordinary one-step-slid board, which is not offered; the working board is
then restored for continued exploration. -/
theorem exit_nongoal_vacates (s : Board) (car : Char) (hwf : s.WF)
    (hempty : s.Cell 2 5 = ' ')
    (hpr1 : s.Cell 2 3 = car) (hpr2 : s.Cell 2 4 = car)
    (hsp : car ≠ ' ') (hX : car ≠ 'X') :
    ∃ t : Int, 0 ≤ t ∧ t ≤ 3 ∧ (∀ c : Int, t ≤ c → c ≤ 4 → s.Cell 2 c = car) ∧
      ∃ bvac : Board,
        (CheckMove (-1) 0 s 5 2).1 = some (bvac, false) ∧
        (∀ c : Int, t ≤ c → c ≤ 5 → bvac.Cell 2 c = ' ') ∧
        (∀ y' x' : Int, ¬(y' = 2 ∧ t ≤ x' ∧ x' ≤ 5) → bvac.Cell y' x' = s.Cell y' x') ∧
        bvac ≠ (s.SetCell 2 5 car).SetCell 2 t ' ' ∧
        (CheckMove (-1) 0 s 5 2).2 = s := by
  obtain ⟨k, hk0, hk3, heq, hcells⟩ := scanEnd_left s car 8 3 2 (by norm_num) hpr1
  have hsspan : ∀ c : Int, 3 - k ≤ c → c ≤ 4 → s.Cell 2 c = car := by
    intro c h1 h2
    by_cases hc3 : c ≤ 3
    · exact hcells c h1 hc3
    · have hc : c = 4 := by omega
      rw [hc]
      exact hpr2
  have h0 : CheckMove (-1) 0 s 5 2 =
      (some (setRange ((s.SetCell 2 5 car).SetCell 2 (3 - k) ' ') 2 (3 - k + 1) 5 ' ', false),
       ((setRange (setRange ((s.SetCell 2 5 car).SetCell 2 (3 - k) ' ') 2 (3 - k + 1) 5 ' ')
          2 (3 - k + 1) 5 car).SetCell 2 5 ' ').SetCell 2 (3 - k) car) := by
    unfold CheckMove
    norm_num
    rw [if_neg (by decide)]
    rw [hpr1]
    rw [if_neg (by simp [hpr2, hsp])]
    rw [if_neg hX]
    rw [heq]
  have hwf1 : ((s.SetCell 2 5 car).SetCell 2 (3 - k) ' ').WF :=
    Board.SetCell_WF _ _ _ _ (Board.SetCell_WF _ _ _ _ hwf)
  have hcellS1 : ∀ y' x' : Int,
      ((s.SetCell 2 5 car).SetCell 2 (3 - k) ' ').Cell y' x' =
        if y' = 2 ∧ x' = 3 - k then ' '
        else if y' = 2 ∧ x' = 5 then car else s.Cell y' x' := by
    intro y' x'
    by_cases h1 : y' = 2 ∧ x' = 3 - k
    · rw [if_pos h1, h1.1, h1.2]
      exact Board.Cell_SetCell_eq _ _ _ _ (Board.SetCell_WF _ _ _ _ hwf) (by omega)
    · rw [if_neg h1, Board.Cell_SetCell_ne _ _ _ _ _ _ h1]
      by_cases h2 : y' = 2 ∧ x' = 5
      · rw [if_pos h2, h2.1, h2.2]
        exact Board.Cell_SetCell_eq _ _ _ _ hwf (by omega)
      · rw [if_neg h2, Board.Cell_SetCell_ne _ _ _ _ _ _ h2]
  have hcellVac : ∀ y' x' : Int,
      (setRange ((s.SetCell 2 5 car).SetCell 2 (3 - k) ' ') 2 (3 - k + 1) 5 ' ').Cell y' x' =
        if y' = 2 ∧ 3 - k ≤ x' ∧ x' ≤ 5 then ' ' else s.Cell y' x' := by
    intro y' x'
    rw [Cell_setRange _ _ _ _ _ hwf1 (by omega) (by omega) (by omega) (by omega)]
    by_cases h1 : y' = 2 ∧ 3 - k + 1 ≤ x' ∧ x' ≤ 5
    · rw [if_pos h1, if_pos ⟨h1.1, by omega, h1.2.2⟩]
    · rw [if_neg h1, hcellS1]
      by_cases h2 : y' = 2 ∧ x' = 3 - k
      · rw [if_pos h2, if_pos ⟨h2.1, by omega, by omega⟩]
      · rw [if_neg h2]
        have hneg : ¬(y' = 2 ∧ 3 - k ≤ x' ∧ x' ≤ 5) := by
          rintro ⟨a1, a2, a3⟩
          by_cases hx3 : x' = 3 - k
          · exact h2 ⟨a1, hx3⟩
          · exact h1 ⟨a1, by omega, a3⟩
        rw [if_neg hneg]
        rw [if_neg (by rintro ⟨a1, a2⟩; exact h1 ⟨a1, by omega, by omega⟩)]
  refine ⟨3 - k, by omega, by omega, hsspan,
    setRange ((s.SetCell 2 5 car).SetCell 2 (3 - k) ' ') 2 (3 - k + 1) 5 ' ',
    by rw [h0], ?_, ?_, ?_, ?_⟩
  · intro c h1 h2
    rw [hcellVac 2 c, if_pos ⟨rfl, h1, h2⟩]
  · intro y' x' hout
    rw [hcellVac y' x', if_neg hout]
  · intro hwrong
    have h5 : (setRange ((s.SetCell 2 5 car).SetCell 2 (3 - k) ' ') 2 (3 - k + 1) 5 ' ').Cell
        2 5 = ' ' := by
      rw [hcellVac 2 5, if_pos ⟨rfl, by omega, by omega⟩]
    rw [hwrong] at h5
    rw [Board.Cell_SetCell_ne _ _ _ _ _ _ (by rintro ⟨-, a⟩; omega)] at h5
    rw [Board.Cell_SetCell_eq _ _ _ _ hwf (by omega)] at h5
    exact hsp h5
  · rw [h0]
    have hwf2 : (setRange ((s.SetCell 2 5 car).SetCell 2 (3 - k) ' ') 2 (3 - k + 1) 5 ' ').WF :=
      setRange_WF _ _ _ _ _ hwf1
    have hwf3 : (setRange (setRange ((s.SetCell 2 5 car).SetCell 2 (3 - k) ' ')
        2 (3 - k + 1) 5 ' ') 2 (3 - k + 1) 5 car).WF := setRange_WF _ _ _ _ _ hwf2
    apply Board.eq_of_cells_ext _ _
      (Board.SetCell_WF _ _ _ _ (Board.SetCell_WF _ _ _ _ hwf3)) hwf
    intro y' x' hy0 hy6 hx0 hx6
    by_cases h1 : y' = 2 ∧ x' = 3 - k
    · rw [h1.1, h1.2]
      rw [Board.Cell_SetCell_eq _ _ _ _ (Board.SetCell_WF _ _ _ _ hwf3) (by omega)]
      exact (hcells (3 - k) (by omega) (by omega)).symm
    · rw [Board.Cell_SetCell_ne _ _ _ _ _ _ h1]
      by_cases h2 : y' = 2 ∧ x' = 5
      · rw [h2.1, h2.2]
        rw [Board.Cell_SetCell_eq _ _ _ _ hwf3 (by omega)]
        exact hempty.symm
      · rw [Board.Cell_SetCell_ne _ _ _ _ _ _ h2]
        rw [Cell_setRange _ _ _ _ _ hwf2 (by omega) (by omega) (by omega) (by omega)]
        by_cases h3 : y' = 2 ∧ 3 - k + 1 ≤ x' ∧ x' ≤ 5
        · rw [if_pos h3]
          have hx5 : x' ≠ 5 := fun hh => h2 ⟨h3.1, hh⟩
          rw [h3.1]
          exact (hsspan x' (by omega) (by omega)).symm
        · rw [if_neg h3, hcellVac y' x']
          rw [if_neg ?_]
          rintro ⟨a1, a2, a3⟩
          by_cases hx3 : x' = 3 - k
          · exact h1 ⟨a1, hx3⟩
          · exact h3 ⟨a1, by omega, a3⟩

/-- Witness for the amended C2 at a concrete input: car `A` of `CarA2`. -/
theorem exit_nongoal_vacates_witness :
    ∃ t : Int, 0 ≤ t ∧ t ≤ 3 ∧ (∀ c : Int, t ≤ c → c ≤ 4 → CarA2.Cell 2 c = 'A') ∧
      ∃ bvac : Board,
        (CheckMove (-1) 0 CarA2 5 2).1 = some (bvac, false) ∧
        (∀ c : Int, t ≤ c → c ≤ 5 → bvac.Cell 2 c = ' ') ∧
        (∀ y' x' : Int, ¬(y' = 2 ∧ t ≤ x' ∧ x' ≤ 5) → bvac.Cell y' x' = CarA2.Cell y' x') ∧
        bvac ≠ (CarA2.SetCell 2 5 'A').SetCell 2 t ' ' ∧
        (CheckMove (-1) 0 CarA2 5 2).2 = CarA2 :=
  exit_nongoal_vacates CarA2 'A' (by decide) (by decide) (by decide) (by decide)
    (by decide) (by decide)

/-- C3 counterexample: `CellSafe` out of range returns the character of
code 0, which is not the space character that denotes an empty in-board
cell (here cell `(0,0)` of the same board). -/
theorem cellSafe_not_empty_marker_cex :
    TrivBoard.Cell 0 0 = ' ' ∧ TrivBoard.CellSafe 0 (-1) = Char.ofNat 0 ∧
    Char.ofNat 0 ≠ ' ' := by
  decide

/-- C3 (amended): for every out-of-range coordinate pair, `CellSafe`
returns the NUL character (code 0) — a fixed default distinct from the
in-board empty marker `' '` — instead of failing. -/
theorem cellSafe_out_of_range (b : Board) (y x : Int)
    (h : x < 0 ∨ 6 ≤ x ∨ y < 0 ∨ 6 ≤ y) : b.CellSafe y x = Char.ofNat 0 := by
  unfold Board.CellSafe
  rw [if_pos h]

/-- Witness for the amended C3 at a concrete input. -/
theorem cellSafe_out_of_range_witness :
    TrivBoard.CellSafe (-3) 2 = Char.ofNat 0 :=
  cellSafe_out_of_range TrivBoard (-3) 2 (by decide)

/-- C4: `CheckAddState` leaves the frontier untouched when the candidate
board is already in the visited set, appends exactly the one entry
`(candidate, origin)` when it is novel, and preserves the invariant that
the visited-set size equals the frontier length. -/
theorem checkAddState_registration (st : SearchState) (b : Board) (origin : Int)
    (hinv : st.visited.card = st.list.length) :
    (b ∈ st.visited → (CheckAddState st b origin).list = st.list) ∧
    (b ∉ st.visited → (CheckAddState st b origin).list = st.list ++ [(b, origin)]) ∧
    (CheckAddState st b origin).visited.card = (CheckAddState st b origin).list.length := by
  by_cases hmem : b ∈ st.visited
  · refine ⟨fun _ => ?_, fun hno => absurd hmem hno, ?_⟩
    · unfold CheckAddState
      rw [if_pos hmem]
    · unfold CheckAddState
      rw [if_pos hmem]
      exact hinv
  · refine ⟨fun hyes => absurd hyes hmem, fun _ => ?_, ?_⟩
    · unfold CheckAddState
      rw [if_neg hmem]
    · unfold CheckAddState
      rw [if_neg hmem]
      simp [Finset.card_insert_of_not_mem hmem, hinv]

/-- Witness for C4 at a concrete input: registering the root board into
the empty search state. -/
theorem checkAddState_registration_witness :
    (CheckAddState emptySearch TrivBoard (-1)).list = emptySearch.list ++ [(TrivBoard, -1)] ∧
    (CheckAddState emptySearch TrivBoard (-1)).visited.card =
      (CheckAddState emptySearch TrivBoard (-1)).list.length :=
  ⟨(checkAddState_registration emptySearch TrivBoard (-1) rfl).2.1 (by decide),
   (checkAddState_registration emptySearch TrivBoard (-1) rfl).2.2⟩

/-- C6: the two terminal outcomes are distinguishable by process status —
a solved run exits with status 0, an exhausted run prints the unsolvable
message and exits with status 1. -/
theorem exit_status_distinguishes (fuel : Nat) (b0 : Board) :
    (∀ st : SearchState, runMain fuel b0 = .solved st →
      processStatus (runMain fuel b0) = some 0) ∧
    (∀ st : SearchState, runMain fuel b0 = .exhausted st →
      processStatus (runMain fuel b0) = some 1 ∧
      userMessage (runMain fuel b0) = some ("Cannot find solution!")) ∧
    (some 0 : Option Nat) ≠ some 1 := by
  refine ⟨fun st h => ?_, fun st h => ?_, by decide⟩
  · rw [h]
    rfl
  · rw [h]
    exact ⟨rfl, rfl⟩

/-- Witness for C6 at concrete inputs: `TrivBoard` solves (status 0) and
the blank board exhausts (status 1, with the message). -/
theorem exit_status_distinguishes_witness :
    processStatus (runMain 10 TrivBoard) = some 0 ∧
    processStatus (runMain 3 BlankBoard) = some 1 ∧
    userMessage (runMain 3 BlankBoard) = some ("Cannot find solution!") :=
  ⟨(exit_status_distinguishes 10 TrivBoard).1 (outState (runMain 10 TrivBoard)) rfl,
   (exit_status_distinguishes 3 BlankBoard).2.1 (outState (runMain 3 BlankBoard)) rfl⟩

/-! Lemmas for the driver loop: exploration decomposes over list appends,
and a win short-circuits everything after it. -/

theorem exploreDirs_append (s : Board) (x y idxI : Int) (l1 l2 : List (Int × Int))
    (st : SearchState) :
    exploreDirs s x y idxI (l1 ++ l2) st =
      match exploreDirs s x y idxI l1 st with
      | .ok st2 => exploreDirs s x y idxI l2 st2
      | .error st2 => .error st2 := by
  induction l1 generalizing st with
  | nil => rfl
  | cons d rest ih =>
    cases hcm : (CheckMove d.1 d.2 s x y).1 with
    | none => simp [exploreDirs, hcm, ih]
    | some bw =>
      cases bw with
      | mk b win =>
        cases win with
        | true => simp [exploreDirs, hcm]
        | false => simp [exploreDirs, hcm, ih]

theorem exploreCells_append (s : Board) (idxI : Int) (l1 l2 : List (Int × Int))
    (st : SearchState) :
    exploreCells s idxI (l1 ++ l2) st =
      match exploreCells s idxI l1 st with
      | .ok st2 => exploreCells s idxI l2 st2
      | .error st2 => .error st2 := by
  induction l1 generalizing st with
  | nil => rfl
  | cons yx rest ih =>
    by_cases hc : s.Cell yx.1 yx.2 ≠ ' '
    · simp [exploreCells, hc, ih]
    · cases hd : exploreDirs s yx.2 yx.1 idxI dirs st with
      | error st2 => simp [exploreCells, hc, hd]
      | ok st2 => simp [exploreCells, hc, hd, ih]

theorem exploreDirs_append_ok (s : Board) (x y idxI : Int) (l1 l2 : List (Int × Int))
    (st st1 : SearchState) (h : exploreDirs s x y idxI l1 st = .ok st1) :
    exploreDirs s x y idxI (l1 ++ l2) st = exploreDirs s x y idxI l2 st1 := by
  rw [exploreDirs_append, h]

theorem exploreCells_append_ok (s : Board) (idxI : Int) (l1 l2 : List (Int × Int))
    (st st1 : SearchState) (h : exploreCells s idxI l1 st = .ok st1) :
    exploreCells s idxI (l1 ++ l2) st = exploreCells s idxI l2 st1 := by
  rw [exploreCells_append, h]

theorem exploreDirs_cons (s : Board) (x y idxI dx dy : Int) (rest : List (Int × Int))
    (st : SearchState) :
    exploreDirs s x y idxI ((dx, dy) :: rest) st =
      match (CheckMove dx dy s x y).1 with
      | none => exploreDirs s x y idxI rest st
      | some (b, win) =>
        if win then .error (CheckAddState st b idxI)
        else exploreDirs s x y idxI rest (CheckAddState st b idxI) := rfl

theorem exploreCells_cons (s : Board) (idxI y x : Int) (rest : List (Int × Int))
    (st : SearchState) :
    exploreCells s idxI ((y, x) :: rest) st =
      if s.Cell y x ≠ ' ' then exploreCells s idxI rest st
      else
        match exploreDirs s x y idxI dirs st with
        | .error st2 => .error st2
        | .ok st2 => exploreCells s idxI rest st2 := rfl

/-- C5: the instant `CheckMove` reports a winning candidate, the driver
registers it and the whole search returns Solved with exactly that state:
the remaining scan directions of the current cell, the remaining cells of
the current entry, and all later frontier entries are never evaluated
(the result does not depend on `dpost`, `post`, or the remaining fuel),
and when the registration succeeds the produced solution path ends at the
newly appended winning entry — the first one found. -/
theorem win_halts_search (fuel idx : Nat) (st st1 st2 : SearchState)
    (pre post dpre dpost : List (Int × Int)) (y x dx dy : Int) (b : Board)
    (hidx : idx < st.list.length)
    (hcells : allCells = pre ++ (y, x) :: post)
    (hdirs : dirs = dpre ++ (dx, dy) :: dpost)
    (hpre : exploreCells (st.list.getD idx dummyEntry).1 (idx : Int) pre st = .ok st1)
    (hempty : (st.list.getD idx dummyEntry).1.Cell y x = ' ')
    (hdpre : exploreDirs (st.list.getD idx dummyEntry).1 x y (idx : Int) dpre st1 = .ok st2)
    (hwin : (CheckMove dx dy (st.list.getD idx dummyEntry).1 x y).1 = some (b, true)) :
    solveLoop (fuel + 1) idx st = .solved (CheckAddState st2 b (idx : Int)) ∧
    (b ∉ st2.visited →
      (CheckAddState st2 b (idx : Int)).list = st2.list ++ [(b, (idx : Int))]) := by
  constructor
  · have hdirseq : exploreDirs (st.list.getD idx dummyEntry).1 x y (idx : Int) dirs st1 =
        .error (CheckAddState st2 b (idx : Int)) := by
      rw [hdirs, exploreDirs_append_ok _ _ _ _ _ _ _ _ hdpre, exploreDirs_cons, hwin]
      rfl
    have hcellseq : exploreCells (st.list.getD idx dummyEntry).1 (idx : Int) allCells st =
        .error (CheckAddState st2 b (idx : Int)) := by
      rw [hcells, exploreCells_append_ok _ _ _ _ _ _ hpre, exploreCells_cons]
      rw [if_neg (by simp only [ne_eq, not_not]; exact hempty), hdirseq]
    unfold solveLoop
    rw [if_pos hidx, hcellseq]
  · intro hnot
    unfold CheckAddState
    rw [if_neg hnot]

/-- Witness for C5 at a concrete input: in the `TrivBoard` run the win is
detected while scanning cell `(2,5)` of frontier entry 1, and the search
returns Solved right there. -/
theorem win_halts_search_witness :
    solveLoop 5 1 stA = .solved (CheckAddState st1w TrivBoard 1) :=
  (win_halts_search 4 1 stA st1w st1w preCells postCells [(1, 0)] [(0, 1), (0, -1)]
    2 5 (-1) 0 TrivBoard (by decide) (by decide) (by decide) (by rfl) (by decide)
    (by rfl) (by rfl)).1

theorem stepsOf_cons (a : Board) (rest : List Board) (next : Option Board) (n : Nat) :
    stepsOf (a :: rest) next n =
      (n + 1, a, match rest with | [] => next.getD a | b2 :: _ => b2) ::
        stepsOf rest next (n + 1) := rfl

theorem stepsOf_append_single (b : Board) (next : Option Board) :
    ∀ (c : List Board) (n : Nat), stepsOf (c ++ [b]) next n =
      stepsOf c (some b) n ++ [(n + c.length + 1, b, next.getD b)] := by
  intro c
  induction c with
  | nil => intro n; simp [stepsOf]
  | cons a c2 ih =>
    intro n
    rw [List.cons_append, stepsOf_cons a (c2 ++ [b]) next n, ih (n + 1),
      stepsOf_cons a c2 (some b) n, List.cons_append]
    congr 1
    · cases c2 with
      | nil => rfl
      | cons a2 c3 => rfl
    · simp only [List.length_cons]
      rw [(by omega : n + 1 + c2.length + 1 = n + (c2.length + 1) + 1)]

theorem printSolutionRec_eq_stepsOf (lst : List (Board × Int)) :
    ∀ (fuel : Nat) (i : Int) (next : Option Board),
      PrintSolutionRec lst fuel i next =
        (stepsOf (chainTo lst fuel i) next 0, (chainTo lst fuel i).length) := by
  intro fuel
  induction fuel with
  | zero => intro i next; rfl
  | succ f ih =>
    intro i next
    by_cases hi : i < 0
    · simp only [PrintSolutionRec, chainTo, if_pos hi]
      rfl
    · simp only [PrintSolutionRec, chainTo, if_neg hi]
      rw [ih]
      rw [stepsOf_append_single]
      simp [List.length_append]

/-- C8: the path reconstructor walks the origin indices back to the root
sentinel `-1`, and its printed output is exactly the chain of boards in
forward root-to-goal order, each board paired with the next board of the
chain for the arrow rendering (the last board paired with the `next`
argument, itself when absent), with step numbers counting from 1 — so the
first move away from the root is shown at step 1; `PrintSolutionAndQuit`
applies this to the last frontier entry. -/
theorem printSolution_forward_chain (st : SearchState) (lst : List (Board × Int))
    (fuel : Nat) (i : Int) (next : Option Board) :
    PrintSolutionRec lst fuel i next =
      (stepsOf (chainTo lst fuel i) next 0, (chainTo lst fuel i).length) ∧
    PrintSolutionAndQuit st =
      stepsOf (chainTo st.list (st.list.length + 1) ((st.list.length : Int) - 1)) none 0 := by
  refine ⟨printSolutionRec_eq_stepsOf lst fuel i next, ?_⟩
  unfold PrintSolutionAndQuit
  rw [printSolutionRec_eq_stepsOf]

/-! Lemmas for C9: the checked accessors agree with the total ones on
in-range coordinates, so no assertion can fire inside `CheckMove`. -/

theorem CellC_eq (b : Board) (y x : Int) (h : 0 ≤ y ∧ y < 6 ∧ 0 ≤ x ∧ x < 6) :
    b.CellC y x = some (b.Cell y x) := by
  unfold Board.CellC Board.Cell
  rw [if_pos h, if_pos h]

theorem SetCellC_eq (b : Board) (y x : Int) (c : Char)
    (h : 0 ≤ y ∧ y < 6 ∧ 0 ≤ x ∧ x < 6) :
    b.SetCellC y x c = some (b.SetCell y x c) := by
  unfold Board.SetCellC
  rw [if_pos h]

theorem scanEndC_eq (s : Board) (car : Char) (dx dy : Int) (hd : (dx, dy) ∈ dirs) :
    ∀ (fuel : Nat) (p : Int × Int), 0 ≤ p.1 ∧ p.1 < 6 ∧ 0 ≤ p.2 ∧ p.2 < 6 →
      scanEndC s car dx dy fuel p = some (scanEnd s car dx dy fuel p) := by
  intro fuel
  induction fuel with
  | zero => intro p hin; rfl
  | succ n ih =>
    intro p hin
    unfold scanEndC scanEnd
    by_cases hb : onBoardD dx dy (p.1 + dx) (p.2 + dy) = true
    · rw [if_pos hb]
      have hin2 := dirStep dx dy p.1 p.2 hd hin hb
      rw [CellC_eq s _ _ ⟨hin2.2.2.1, hin2.2.2.2, hin2.1, hin2.2.1⟩]
      simp only []
      by_cases hc : s.Cell (p.2 + dy) (p.1 + dx) = car
      · rw [if_pos hc, if_pos ⟨hb, hc⟩]
        exact ih (p.1 + dx, p.2 + dy) hin2
      · rw [if_neg hc, if_neg (by rintro ⟨-, hcc⟩; exact hc hcc)]
    · rw [if_neg hb, if_neg (by rintro ⟨hbb, -⟩; exact hb hbb)]

theorem setRangeAuxC_eq (y : Int) (c : Char) :
    ∀ (n : Nat) (b : Board) (lo : Int), 0 ≤ y → y < 6 → 0 ≤ lo → lo + n ≤ 6 →
      setRangeAuxC b y lo c n = some (setRangeAux b y lo c n) := by
  intro n
  induction n with
  | zero => intro b lo h1 h2 h3 h4; rfl
  | succ m ih =>
    intro b lo hy0 hy6 hlo hhi
    unfold setRangeAuxC setRangeAux
    rw [SetCellC_eq b y lo c ⟨hy0, hy6, hlo, by omega⟩]
    exact ih _ _ hy0 hy6 (by omega) (by omega)

theorem probe2_inR (dx dy x y : Int) (hd : (dx, dy) ∈ dirs)
    (hx : 0 ≤ x ∧ x < 6) (hy : 0 ≤ y ∧ y < 6)
    (hin : 0 ≤ x + dx * 2 ∧ x + dx * 2 < 6 ∧ 0 ≤ y + dy * 2 ∧ y + dy * 2 < 6) :
    0 ≤ y + dy * 2 - dy ∧ y + dy * 2 - dy < 6 ∧ 0 ≤ x + dx * 2 - dx ∧ x + dx * 2 - dx < 6 := by
  simp [dirs, Prod.ext_iff] at hd
  rcases hd with ⟨h1, h2⟩ | ⟨h1, h2⟩ | ⟨h1, h2⟩ | ⟨h1, h2⟩ <;> subst h1 <;> subst h2 <;> omega

/-- C9: for every well-formed board, every in-range empty cell and each
of the four scan directions, every `Cell` and `SetCell` access performed
by `CheckMove` is within bounds — the checked variant, in which an
assertion failure is `none`, returns exactly `CheckMove`'s result. -/
theorem checkMove_no_assert (dx dy x y : Int) (s : Board)
    (hd : (dx, dy) ∈ dirs) (hwf : s.WF)
    (hx : 0 ≤ x ∧ x < 6) (hy : 0 ≤ y ∧ y < 6)
    (hempty : s.Cell y x = ' ') :
    CheckMoveChecked dx dy s x y = some (CheckMove dx dy s x y) := by
  unfold CheckMoveChecked CheckMove
  by_cases h1 : onBoardD dx dy (x + dx * 2) (y + dy * 2) = false
  · rw [if_pos h1, if_pos h1]
  · rw [if_neg h1, if_neg h1]
    have hob : onBoardD dx dy (x + dx * 2) (y + dy * 2) = true := by
      revert h1
      cases onBoardD dx dy (x + dx * 2) (y + dy * 2) <;> simp
    have hin := probe_inR dx dy x y hd hx hy hob
    have hin2 := probe2_inR dx dy x y hd hx hy hin
    rw [CellC_eq s _ _ ⟨hin.2.2.1, hin.2.2.2, hin.1, hin.2.1⟩]
    simp only []
    rw [CellC_eq s _ _ ⟨hin2.1, hin2.2.1, hin2.2.2.1, hin2.2.2.2⟩]
    simp only []
    by_cases h2 : s.Cell (y + dy * 2 - dy) (x + dx * 2 - dx) ≠ s.Cell (y + dy * 2) (x + dx * 2) ∨
        s.Cell (y + dy * 2) (x + dx * 2) = ' '
    · rw [if_pos h2, if_pos h2]
    · rw [if_neg h2, if_neg h2]
      rw [scanEndC_eq s _ dx dy hd 8 (x + dx * 2, y + dy * 2) hin]
      simp only []
      have hsc := scanEnd_spec s (s.Cell (y + dy * 2) (x + dx * 2)) dx dy hd 8
        (x + dx * 2, y + dy * 2) hin rfl
      obtain ⟨⟨hr1, hr2, hr3, hr4⟩, -⟩ := hsc
      rw [SetCellC_eq s y x _ ⟨hy.1, hy.2, hx.1, hx.2⟩]
      simp only []
      rw [SetCellC_eq _ _ _ _ ⟨hr3, hr4, hr1, hr2⟩]
      simp only []
      by_cases h3 : dx = -1 ∧ x = 5 ∧ y = 2
      · rw [if_pos h3, if_pos h3]
        by_cases h4 : s.Cell (y + dy * 2) (x + dx * 2) = 'X'
        · rw [if_pos h4, if_pos h4]
        · rw [if_neg h4, if_neg h4]
          rw [setRangeAuxC_eq y ' ' _ _ _ hy.1 hy.2 (by omega) (by omega)]
          simp only []
          rw [setRangeAuxC_eq y _ _ _ _ hy.1 hy.2 (by omega) (by omega)]
          simp only []
          rw [SetCellC_eq _ y x ' ' ⟨hy.1, hy.2, hx.1, hx.2⟩]
          simp only []
          rw [SetCellC_eq _ _ _ _ ⟨hr3, hr4, hr1, hr2⟩]
          rfl
      · rw [if_neg h3, if_neg h3]
        rw [SetCellC_eq _ y x ' ' ⟨hy.1, hy.2, hx.1, hx.2⟩]
        simp only []
        rw [SetCellC_eq _ _ _ _ ⟨hr3, hr4, hr1, hr2⟩]

/-- Witness for C9 at a concrete input: the downward slide of `VCarB`
into `(2,0)` performs only in-range accesses. -/
theorem checkMove_no_assert_witness :
    CheckMoveChecked 0 (-1) VCarB 0 2 = some (CheckMove 0 (-1) VCarB 0 2) :=
  checkMove_no_assert 0 (-1) 0 2 VCarB (by decide) (by decide) (by decide) (by decide)
    (by decide)

/-- C1 failing input: on `TrivBoard` — the goal car already at the exit
column — the winning slide regenerates the root board, its registration
fails as a duplicate, yet the process still prints the path to the last
appended state and exits successfully: a 2-move "solution" `TrivBoard →
TrivMid → TrivFar` whose final board has moved the goal car away from the
exit (cell `(2,5)` empty, an X at `(2,2)`), while one legal move (the
goal car's full exit via the exit row, available from the root) frees the
goal car.  The emitted solution is neither minimal nor a solution. -/
theorem trivialBoard_bogus_solution :
    processStatus (runMain 10 TrivBoard) = some 0 ∧
    emittedBoards (runMain 10 TrivBoard) = [TrivBoard, TrivMid, TrivFar] ∧
    TrivFar.Cell 2 5 = ' ' ∧ TrivFar.Cell 2 2 = 'X' ∧
    specGoalCarFullExit TrivBoard = some BlankBoard := by
  exact ⟨rfl, rfl, rfl, rfl, rfl⟩
